import Mathlib

/-!
# Verification of the Obsidian MCP tool-invocation pipeline

A shallow embedding of the core of the `obsidian-ts-mcp` server:

* `src/cli.ts` — `buildArgs`, `execObsidian`, `runObsidian` (argument
  construction, subprocess outcome classification, vault targeting);
* `src/validation.ts` — `validateInput` over the declarative tool catalog
  of `src/tools.ts`;
* `src/handlers.ts` — the dispatch switch of `handleTool`, and the pure
  text-transformation cores of the compound operations `backlog_done` and
  `project_list`.

JavaScript runtime values that the code inspects with `typeof`, `=== null`
and `=== undefined` are modelled by the inductive `JsValue`; the effectful
subprocess boundary (`execFile`) is modelled by passing the observed process
behaviour (`ExecBehavior`) as an explicit argument, so every function is
pure and executable.
-/

/-! ## JavaScript value model -/

/-- Runtime values that can appear in a tool-call parameter bag.
`typeof` distinguishes `str`/`num`/`boolean`; `null` and `undefined`
are distinct values (`typeof null = "object"`).
JavaScript numbers are modelled as `Int`: every numeric parameter the
server handles (`limit`, `line`) is an integer, and `String(n)` on an
integral number is its decimal form, matching `Int.repr`. -/
inductive JsValue where
  | str (s : String)
  | num (n : Int)
  | boolean (b : Bool)
  | null
  | undefined
deriving DecidableEq

/-- JavaScript `typeof`. -/
def jsTypeof : JsValue → String
  | .str _ => "string"
  | .num _ => "number"
  | .boolean _ => "boolean"
  | .null => "object"
  | .undefined => "undefined"

/-- A parameter bag: a JavaScript object, i.e. an insertion-ordered list of
key/value pairs (JS object keys are unique; nothing below depends on it). -/
abbrev Bag := List (String × JsValue)

/-- JavaScript property access `input[key]`: the first entry with the key,
or `undefined` when the key is absent. -/
def jsGet (input : Bag) (key : String) : JsValue :=
  match List.find? (fun kv => kv.1 == key) input with
  | some kv => kv.2
  | none => .undefined

/-! ## JavaScript string primitives

The string methods the source uses (`trim`, `split`, `startsWith`,
positional `substring`/drop, truthiness) are modelled structurally on the
character list of the string, following the ECMAScript definitions. -/

/-- The characters `String.prototype.trim` removes (the ASCII WhiteSpace
and LineTerminator code points; the rarely-seen Unicode space separators
are not modelled). -/
def isJsWhitespace (c : Char) : Bool :=
  c == ' ' || c == '\t' || c == '\n' || c == '\r' || c == '\x0b' || c == '\x0c'

/-- `s.trim()`: strip leading and trailing whitespace. -/
def jsTrim (s : String) : String :=
  ⟨((s.data.dropWhile isJsWhitespace).reverse.dropWhile isJsWhitespace).reverse⟩

/-- `s.split(sep)` for a one-character separator (the only separators the
source uses are `"\n"` and `"/"`): splitting `""` yields `[""]`, and a
trailing separator yields a trailing empty segment, as in JavaScript. -/
def splitChar (sep : Char) : List Char → List (List Char)
  | [] => [[]]
  | c :: rest =>
    match splitChar sep rest with
    | [] => []
    | seg :: segs => if c == sep then [] :: seg :: segs else (c :: seg) :: segs

/-- `s.split(sep)` as strings. -/
def jsSplit (s : String) (sep : Char) : List String :=
  (splitChar sep s.data).map (fun cs => ⟨cs⟩)

/-- `s.startsWith(pat)`. -/
def jsStartsWith (s pat : String) : Bool :=
  pat.data.isPrefixOf s.data

/-- The suffix of `s` after its first `n` characters. -/
def jsDrop (s : String) (n : Nat) : String :=
  ⟨s.data.drop n⟩

/-! ## `src/cli.ts` — Argument Builder

`buildArgs(command, params)` from `src/cli.ts`.  The parameter objects the
handlers pass have values of type `string | number | boolean | undefined`;
an entry's value is `none` when it is `undefined`. -/

/-- A defined parameter value (`string | number | boolean`). -/
inductive ParamValue where
  | str (s : String)
  | num (n : Int)
  | bool (b : Bool)
deriving DecidableEq

/-- The loop body of `buildArgs` of `src/cli.ts`: skip `undefined`, push
the bare key for `true`, skip `false`, and push `key=value` otherwise. -/
def buildStep (args : List String) (kv : String × Option ParamValue) : List String :=
  match kv.2 with
  | none => args
  | some (.bool true) => args ++ [kv.1]
  | some (.bool false) => args
  | some (.str s) => args ++ [kv.1 ++ "=" ++ s]
  | some (.num n) => args ++ [kv.1 ++ "=" ++ toString n]

/-- `buildArgs` assembled: `args` starts as `[command]` and the loop body
`buildStep` runs over the bag entries in insertion order. -/
def buildArgs (command : String) (params : List (String × Option ParamValue)) : List String :=
  List.foldl buildStep [command] params

/-- The token a single bag entry contributes to the argument vector
(`none` when the entry is skipped).  This is the loop body of `buildArgs`
read entry-wise; `buildArgs_eq` below proves the correspondence. -/
def emitToken (kv : String × Option ParamValue) : Option String :=
  match kv.2 with
  | none => none
  | some (.bool true) => some kv.1
  | some (.bool false) => none
  | some (.str s) => some (kv.1 ++ "=" ++ s)
  | some (.num n) => some (kv.1 ++ "=" ++ toString n)

/-! ## `src/cli.ts` — Process Runner -/

/-- Default timeout for CLI commands in milliseconds (`DEFAULT_TIMEOUT_MS`). -/
def DEFAULT_TIMEOUT_MS : Nat := 15000

/-- The error object `execFile` passes to its callback when the invocation
fails: `killed` is set when the process was terminated (timeout expiry),
`code` is its numeric exit code when one exists. -/
structure ExecError where
  killed : Bool
  code : Option Int
deriving DecidableEq

/-- Observed behaviour of one `execFile` call: the (possibly absent) error
object and the captured output streams. -/
structure ExecBehavior where
  error : Option ExecError
  stdout : String
  stderr : String
deriving DecidableEq

/-- `CliResult` of `src/cli.ts`. -/
structure CliResult where
  stdout : String
  stderr : String
  exitCode : Int
deriving DecidableEq

/-- Outcome of `execObsidian`: it rejects (with the timeout-shaped
`ObsidianCliError`) only when the process was killed; otherwise it resolves
with a `CliResult` carrying the derived exit code. -/
inductive CliOutcome where
  | timeout (message : String) (exitCode : Int) (stderr : String)
  | result (r : CliResult)
deriving DecidableEq

/-- `execObsidian(args, timeoutMs)` of `src/cli.ts`, as a function of the
observed `execFile` behaviour.  Mirrors the callback: a killed process
rejects with the timeout message; otherwise the exit code is the error's
numeric `code` if present, else `1` when an error exists, else `0`. -/
def execObsidian (args : List String) (timeoutMs : Nat) (b : ExecBehavior) : CliOutcome :=
  match b.error with
  | some e =>
    if e.killed then
      .timeout
        ("Command timed out after " ++ toString timeoutMs ++ "ms: obsidian " ++
          String.intercalate " " args)
        1 b.stderr
    else
      .result ⟨b.stdout, b.stderr, e.code.getD 1⟩
  | none => .result ⟨b.stdout, b.stderr, 0⟩

/-- `options?.vault ?? process.env.OBSIDIAN_VAULT`: the explicit per-call
vault wins over the environment default (`??` only falls through on
`undefined`/`null`, so an explicit empty string still wins). -/
def resolvedVault (optVault envVault : Option String) : Option String :=
  match optVault with
  | some v => some v
  | none => envVault

/-- `options?.timeoutMs ?? DEFAULT_TIMEOUT_MS`. -/
def resolvedTimeout (optTimeout : Option Nat) : Nat :=
  optTimeout.getD DEFAULT_TIMEOUT_MS

/-- `const fullArgs = vault ? [...args, `vault=...`] : args` — JavaScript
string truthiness: only a present, non-empty vault name is appended. -/
def withVault (args : List String) (vault : Option String) : List String :=
  match vault with
  | some v => if v ≠ "" then args ++ ["vault=" ++ v] else args
  | none => args

/-- Result of `runObsidian`: resolved stdout, or one of the two
`ObsidianCliError` rejections (timeout from `execObsidian`, non-zero exit
classified in `runObsidian` itself). -/
inductive RunResult where
  | ok (out : String)
  | timeoutFailure (message : String) (exitCode : Int) (stderr : String)
  | nonZeroExit (message : String) (exitCode : Int) (stderr : String)
deriving DecidableEq

/-- `runObsidian(args, options)` of `src/cli.ts`, as a function of the
per-call options, the `OBSIDIAN_VAULT` environment value, and the observed
process behaviour. -/
def runObsidian (args : List String) (optVault : Option String) (optTimeout : Option Nat)
    (envVault : Option String) (b : ExecBehavior) : RunResult :=
  let vault := resolvedVault optVault envVault
  let timeout := resolvedTimeout optTimeout
  let fullArgs := withVault args vault
  match execObsidian fullArgs timeout b with
  | .timeout msg code stderr => .timeoutFailure msg code stderr
  | .result r =>
    if r.exitCode ≠ 0 then
      .nonZeroExit
        (if jsTrim r.stderr ≠ "" then jsTrim r.stderr
         else if jsTrim r.stdout ≠ "" then jsTrim r.stdout
         else "Command failed")
        r.exitCode r.stderr
    else
      .ok (jsTrim r.stdout)

/-! ## `src/tools.ts` — the declarative tool catalog

Each tool's `inputSchema` is an object schema: named properties (each with
an optional declared primitive type and an optional enumerated value set)
plus a `required` list (`objectSchema` omits `required` when the list is
empty; `new Set(undefined)` in `getSchema` is the empty set, so an absent
`required` and an empty one are interchangeable).  Human-readable
`description` strings never influence validation and are not modelled. -/

/-- One property of a tool's input schema (`SchemaProp` of
`src/validation.ts`, minus the inert `description`). -/
structure SchemaProp where
  type? : Option String := none
  enum? : Option (List String) := none
deriving DecidableEq

/-- A property with a declared primitive type. -/
def tprop (t : String) : SchemaProp := { type? := some t }

/-- A string property with an enumerated value set. -/
def eprop (t : String) (es : List String) : SchemaProp :=
  { type? := some t, enum? := some es }

/-- Parsed schema of one tool (`ToolSchema` of `src/validation.ts`):
the required-field set (in declaration order) and the declared
properties (in declaration order). -/
structure ToolSchema where
  required : List String
  properties : List (String × SchemaProp)
deriving DecidableEq

/-- One tool catalog entry: its name and input schema. -/
structure ToolDef where
  name : String
  required : List String := []
  properties : List (String × SchemaProp)
deriving DecidableEq

/-- The complete 32-entry tool catalog `tools` of `src/tools.ts`
(names, declared properties with types/enums, and required lists,
in source order). -/
def tools : List ToolDef := [
  { name := "create_note", required := ["name"],
    properties := [("name", tprop "string"), ("content", tprop "string"),
      ("template", tprop "string"), ("overwrite", tprop "boolean")] },
  { name := "read_note",
    properties := [("file", tprop "string"), ("path", tprop "string")] },
  { name := "append_to_note", required := ["content"],
    properties := [("file", tprop "string"), ("path", tprop "string"),
      ("content", tprop "string")] },
  { name := "prepend_to_note", required := ["content"],
    properties := [("file", tprop "string"), ("path", tprop "string"),
      ("content", tprop "string")] },
  { name := "search_vault", required := ["query"],
    properties := [("query", tprop "string"), ("path", tprop "string"),
      ("limit", tprop "number"), ("format", eprop "string" ["text", "json"])] },
  { name := "daily_note", properties := [] },
  { name := "daily_append", required := ["content"],
    properties := [("content", tprop "string")] },
  { name := "get_vault_info",
    properties := [("info", eprop "string" ["name", "path", "files", "folders", "size"])] },
  { name := "list_files",
    properties := [("folder", tprop "string"), ("ext", tprop "string"),
      ("total", tprop "boolean")] },
  { name := "get_tags",
    properties := [("sort", eprop "string" ["name", "count"])] },
  { name := "get_backlinks",
    properties := [("file", tprop "string"), ("path", tprop "string")] },
  { name := "get_outline",
    properties := [("file", tprop "string"), ("path", tprop "string"),
      ("format", eprop "string" ["tree", "md"])] },
  { name := "set_property", required := ["name", "value"],
    properties := [("name", tprop "string"), ("value", tprop "string"),
      ("type", eprop "string" ["text", "list", "number", "checkbox", "date", "datetime"]),
      ("file", tprop "string"), ("path", tprop "string")] },
  { name := "read_property", required := ["name"],
    properties := [("name", tprop "string"), ("file", tprop "string"),
      ("path", tprop "string")] },
  { name := "list_tasks",
    properties := [("file", tprop "string"), ("path", tprop "string"),
      ("all", tprop "boolean"), ("daily", tprop "boolean"), ("done", tprop "boolean"),
      ("todo", tprop "boolean"), ("verbose", tprop "boolean")] },
  { name := "toggle_task",
    properties := [("ref", tprop "string"), ("file", tprop "string"),
      ("line", tprop "number")] },
  { name := "daily_read", properties := [] },
  { name := "daily_prepend", required := ["content"],
    properties := [("content", tprop "string")] },
  { name := "list_templates",
    properties := [("total", tprop "boolean")] },
  { name := "read_template", required := ["name"],
    properties := [("name", tprop "string"), ("resolve", tprop "boolean")] },
  { name := "get_links",
    properties := [("file", tprop "string"), ("path", tprop "string")] },
  { name := "list_properties",
    properties := [("file", tprop "string"), ("path", tprop "string"),
      ("sort", eprop "string" ["name", "count"])] },
  { name := "remove_property", required := ["name"],
    properties := [("name", tprop "string"), ("file", tprop "string"),
      ("path", tprop "string")] },
  { name := "get_tag_info", required := ["tag"],
    properties := [("tag", tprop "string"), ("verbose", tprop "boolean")] },
  { name := "move_file", required := ["from", "to"],
    properties := [("from", tprop "string"), ("to", tprop "string")] },
  { name := "query_base", required := ["base"],
    properties := [("base", tprop "string"), ("view", tprop "string"),
      ("format", eprop "string" ["json", "csv", "tsv", "md", "paths"]),
      ("limit", tprop "number")] },
  { name := "backlog_add", required := ["project", "item"],
    properties := [("project", tprop "string"), ("item", tprop "string"),
      ("priority", eprop "string" ["high", "medium", "low"])] },
  { name := "backlog_read", required := ["project"],
    properties := [("project", tprop "string")] },
  { name := "backlog_done", required := ["project", "item"],
    properties := [("project", tprop "string"), ("item", tprop "string")] },
  { name := "project_list", properties := [] },
  { name := "project_overview", required := ["project"],
    properties := [("project", tprop "string")] },
  { name := "project_create", required := ["project", "description"],
    properties := [("project", tprop "string"), ("description", tprop "string"),
      ("repo", tprop "string"), ("tech", tprop "string")] }
]

/-! ## `src/validation.ts` — Input Validator -/

/-- The distinct failures `validateInput` can raise; one constructor per
`throw new ValidationError(...)` site, carrying that site's message data:
`unknownTool` — the tool name is not in the catalog;
`missingRequired` — a required parameter is `undefined` or `null`;
`emptyRequired` — a required string parameter trims to empty;
`typeMismatch` — a declared-type parameter has the wrong `typeof`;
`invalidEnum` — an enum-constrained string is outside the allowed set. -/
inductive ValidationError where
  | unknownTool (name : String)
  | missingRequired (field : String)
  | emptyRequired (field : String)
  | typeMismatch (key expected actual : String)
  | invalidEnum (key : String) (allowed : List String) (value : String)
deriving DecidableEq

/-- `getSchema` of `src/validation.ts` (sans the loss-free performance
cache): find the tool by name and parse its schema. -/
def getSchema (toolName : String) : Option ToolSchema :=
  (List.find? (fun t => t.name == toolName) tools).map
    (fun t => ⟨t.required, t.properties⟩)

/-- The required-field check of `validateInput` for a single field:
`undefined`/`null` → missing; a string whose trim is empty → empty. -/
def checkRequiredField (input : Bag) (field : String) : Option ValidationError :=
  match jsGet input field with
  | .undefined => some (.missingRequired field)
  | .null => some (.missingRequired field)
  | .str s => if jsTrim s = "" then some (.emptyRequired field) else none
  | _ => none

/-- The type check of `validateInput` for one declared property:
three guarded comparisons of the declared type against `typeof value`. -/
def checkType (p : SchemaProp) (key : String) (value : JsValue) : Option ValidationError :=
  match p.type? with
  | none => none
  | some expected =>
    let actual := jsTypeof value
    if expected = "string" ∧ actual ≠ "string" then some (.typeMismatch key expected actual)
    else if expected = "number" ∧ actual ≠ "number" then some (.typeMismatch key expected actual)
    else if expected = "boolean" ∧ actual ≠ "boolean" then some (.typeMismatch key expected actual)
    else none

/-- The enum check of `validateInput`: only string values are tested
against a declared allowed set. -/
def checkEnum (p : SchemaProp) (key : String) (value : JsValue) : Option ValidationError :=
  match p.enum?, value with
  | some es, .str s => if es.contains s then none else some (.invalidEnum key es s)
  | _, _ => none

/-- The per-entry body of `validateInput`'s second loop: skip `undefined`
values and keys not declared in the schema (extra parameters pass through),
then run the type check followed by the enum check. -/
def checkDeclaredProp (props : List (String × SchemaProp)) (kv : String × JsValue) :
    Option ValidationError :=
  if kv.2 = .undefined then none
  else
    match (List.find? (fun p => p.1 == kv.1) props).map (fun p => p.2) with
    | none => none
    | some p =>
      match checkType p kv.1 kv.2 with
      | some e => some e
      | none => checkEnum p kv.1 kv.2

/-- `validateInput(toolName, input)` of `src/validation.ts`, returning the
first failure (or `none` when validation passes): unknown-tool lookup,
then the required-field loop, then the type/enum loop over the bag's
entries in insertion order. -/
def validateInput (toolName : String) (input : Bag) : Option ValidationError :=
  match getSchema toolName with
  | none => some (.unknownTool toolName)
  | some schema =>
    match List.findSome? (checkRequiredField input) schema.required with
    | some e => some e
    | none => List.findSome? (checkDeclaredProp schema.properties) input

/-! ## `src/handlers.ts` — dispatch switch coverage -/

/-- The case labels of `handleTool`'s `switch (name)` in `src/handlers.ts`:
`true` exactly when the name has a dispatch case, `false` on the
`default` branch (`throw new Error("Unknown tool: ...")`). -/
def handleToolHasCase : String → Bool
  | "create_note" => true
  | "read_note" => true
  | "append_to_note" => true
  | "prepend_to_note" => true
  | "search_vault" => true
  | "daily_note" => true
  | "daily_append" => true
  | "get_vault_info" => true
  | "list_files" => true
  | "get_tags" => true
  | "get_backlinks" => true
  | "get_outline" => true
  | "set_property" => true
  | "read_property" => true
  | "list_tasks" => true
  | "toggle_task" => true
  | "daily_read" => true
  | "daily_prepend" => true
  | "list_templates" => true
  | "read_template" => true
  | "get_links" => true
  | "list_properties" => true
  | "remove_property" => true
  | "get_tag_info" => true
  | "move_file" => true
  | "query_base" => true
  | "backlog_add" => true
  | "backlog_read" => true
  | "backlog_done" => true
  | "project_list" => true
  | "project_overview" => true
  | "project_create" => true
  | _ => false

/-! ## `src/handlers.ts` — the `backlog_done` compound operation

Its pure core: rewrite the first unchecked matching line of the backlog
text already read from the vault.  The generated `@done` timestamp depends
on the wall clock, so it is threaded through as an explicit `stamp`
argument. -/

/-- JavaScript `String.prototype.includes` on character lists:
`sub` occurs contiguously inside `s`. -/
def charsContain (pat : List Char) : List Char → Bool
  | [] => pat.isEmpty
  | c :: rest => List.isPrefixOf pat (c :: rest) || charsContain pat rest

/-- `line.includes(item)`. -/
def jsIncludes (s sub : String) : Bool :=
  charsContain sub.toList s.toList

/-- The match test of the `backlog_done` loop:
`lines[i].startsWith("- [ ] ") && lines[i].includes(item)`. -/
def matchesLine (item line : String) : Bool :=
  jsStartsWith line "- [ ] " && jsIncludes line item

/-- `line.replace("- [ ] ", "- [x] ")` on a line that the loop guard has
already verified starts with `"- [ ] "`: `String.prototype.replace` with a
string pattern substitutes the first occurrence, which here is at
position 0, so the marker (6 characters) is swapped in place. -/
def swapMarker (line : String) : String :=
  if jsStartsWith line "- [ ] " then "- [x] " ++ jsDrop line 6 else line

/-- The full rewrite of the matched line:
`lines[i].replace("- [ ] ", "- [x] ") + ` followed by `@done (stamp)`. -/
def markDoneLine (line stamp : String) : String :=
  swapMarker line ++ " @done (" ++ stamp ++ ")"

/-- The scan-and-rewrite loop of `backlog_done`: find the first line that
starts with the unchecked marker and contains `item`, rewrite it in place,
and report `none` when no line matches (`found` stays false). -/
def markFirst (item stamp : String) : List String → Option (List String)
  | [] => none
  | line :: rest =>
    if matchesLine item line then
      some (markDoneLine line stamp :: rest)
    else
      (markFirst item stamp rest).map (fun ls => line :: ls)

/-- Observable outcome of the `backlog_done` handler after the backlog text
has been read: either the write-back invocation (the full rewritten text
persisted via create-with-overwrite) together with the handler's reply, or
the not-found `Error` (no write-back is issued). -/
inductive BacklogDoneOutcome where
  | done (writeBack : String) (reply : String)
  | notFound (message : String)
deriving DecidableEq

/-- The `backlog_done` case of `handleTool`, as a function of the backlog
`content` returned by the read invocation and the formatted timestamp:
split on newlines, run the scan-and-rewrite loop, and either write the
rejoined lines back or throw the not-found error. -/
def backlogDone (project item stamp content : String) : BacklogDoneOutcome :=
  match markFirst item stamp (jsSplit content '\n') with
  | some lines => .done (String.intercalate "\n" lines) ("Marked done: " ++ item)
  | none =>
    .notFound
      ("No unchecked backlog item matching \"" ++ item ++ "\" in Projects/" ++
        project ++ "/backlog.md")

/-! ## `src/handlers.ts` — the `project_list` compound operation -/

/-- `line.replace(/^Projects\//, "")`: the regex is anchored, so only a
leading `"Projects/"` (9 characters) is stripped. -/
def stripProjects (line : String) : String :=
  if jsStartsWith line "Projects/" then jsDrop line 9 else line

/-- `s.split("/")[0]`: the first path segment (`split` never yields an
empty array, so index 0 exists). -/
def firstSegment (s : String) : String :=
  (jsSplit s '/').headD ""

/-- The name stream `listing.split("\n").map(...).filter(Boolean)`:
strip the `Projects/` prefix, take the first path segment, and drop
empty strings (the falsy strings). -/
def projectNames (listing : String) : List String :=
  ((jsSplit listing '\n').map (fun line => firstSegment (stripProjects line))).filter
    (fun s => !(s == ""))

/-- `[...new Set(list)]`: JavaScript `Set` iterates in insertion order, so
spreading it keeps the first occurrence of each element, in order.
`seen` accumulates the elements already emitted. -/
def dedupSeen (seen : List String) : List String → List String
  | [] => []
  | x :: xs =>
    if x ∈ seen then dedupSeen seen xs
    else x :: dedupSeen (x :: seen) xs

/-- First-occurrence deduplication, the meaning of `[...new Set(l)]`. -/
def dedupFirst (l : List String) : List String := dedupSeen [] l

/-- The `project_list` case of `handleTool`, as a function of the raw file
`listing` returned by the `files` invocation: the unique project names
joined by newlines. -/
def projectList (listing : String) : String :=
  String.intercalate "\n" (dedupFirst (projectNames listing))

/-! ## Discriminators used to state the validation claims -/

/-- The value is `undefined` or `null` — the condition of the
missing-required throw. -/
def isAbsentOrNull : JsValue → Bool
  | .undefined => true
  | .null => true
  | _ => false

/-- The value is a string whose trim is empty — the condition of the
empty-required throw. -/
def isBlankStr : JsValue → Bool
  | .str s => jsTrim s == ""
  | _ => false

/-- The validation outcome is a required-field failure (missing or empty)
for one of the given required fields. -/
def isRequiredFieldFailure (req : List String) : Option ValidationError → Bool
  | some (.missingRequired f) => decide (f ∈ req)
  | some (.emptyRequired f) => decide (f ∈ req)
  | _ => false

/-- The validation outcome is a `MissingRequired` failure for a required
field that is indeed absent or null in the bag. -/
def isMissingRequiredFor (req : List String) (input : Bag) : Option ValidationError → Bool
  | some (.missingRequired f) => decide (f ∈ req) && isAbsentOrNull (jsGet input f)
  | _ => false

/-- The validation outcome is a `MissingRequired` failure (for any field). -/
def isMissingRequiredError : Option ValidationError → Bool
  | some (.missingRequired _) => true
  | _ => false

/-! # Theorems -/

/-! ## Argument Builder (claims C6, C7) -/

theorem buildStep_eq_emit (args : List String) (kv : String × Option ParamValue) :
    buildStep args kv = args ++ (emitToken kv).toList := by
  rcases kv with ⟨k, v⟩
  cases v with
  | none => simp [buildStep, emitToken]
  | some pv =>
    cases pv with
    | str s => simp [buildStep, emitToken]
    | num n => simp [buildStep, emitToken]
    | bool b => cases b <;> simp [buildStep, emitToken]

theorem foldl_buildStep_eq (params : List (String × Option ParamValue)) (acc : List String) :
    List.foldl buildStep acc params = acc ++ List.filterMap emitToken params := by
  induction params generalizing acc with
  | nil => simp
  | cons kv rest ih =>
    rw [List.foldl_cons, ih, buildStep_eq_emit, List.filterMap_cons]
    cases h : emitToken kv <;> simp [h]

/-- The argument vector is the command followed by the tokens the bag
entries emit, in insertion order. -/
theorem buildArgs_eq (command : String) (params : List (String × Option ParamValue)) :
    buildArgs command params = command :: List.filterMap emitToken params := by
  rw [buildArgs, foldl_buildStep_eq]
  rfl

/-- **C7.** `buildArgs` is total over well-typed parameter bags (it is a
Lean function, defined for every bag): the command name is always the
first element, and the emitted non-command tokens are exactly the
per-entry tokens of the bag, in the bag's insertion order (`filterMap`
keeps the order of the entries it keeps). -/
theorem buildArgs_total_ordered (command : String)
    (params : List (String × Option ParamValue)) :
    buildArgs command params = command :: List.filterMap emitToken params ∧
    (buildArgs command params).head? = some command := by
  refine ⟨buildArgs_eq command params, ?_⟩
  rw [buildArgs_eq]
  rfl

/-- **C6.** Boolean flag law: a `true` flag emits the bare key token (no
`=value` suffix); a `false` or `undefined` flag emits no token at all —
in any bag, an entry whose value is `false` or `undefined` leaves the
output exactly as if the entry were not there, so no output of `buildArgs`
carries an explicit-false representation. -/
theorem buildArgs_boolean_flag_law (command f : String) :
    buildArgs command [(f, some (.bool true))] = [command, f] ∧
    buildArgs command [(f, some (.bool false))] = [command] ∧
    buildArgs command [(f, none)] = [command] ∧
    (∀ pre post, buildArgs command (pre ++ (f, some (.bool false)) :: post) =
        buildArgs command (pre ++ post)) ∧
    (∀ pre post, buildArgs command (pre ++ (f, none) :: post) =
        buildArgs command (pre ++ post)) := by
  refine ⟨?_, ?_, ?_, fun pre post => ?_, fun pre post => ?_⟩
  all_goals simp [buildArgs_eq, List.filterMap_append, List.filterMap_cons, emitToken]

/-! ## Process Runner (claims C2, C3, C4) -/

/-- **C4.** Vault targeting: the target selector resolves with explicit
per-call value winning over the process-wide default; when it resolves to
a non-empty string `v`, `runObsidian` appends exactly the one token
`vault=v` after all other tokens of the argument vector, and when it
resolves to absent or empty the vector is passed unchanged. -/
theorem runObsidian_vault_targeting (args : List String) (optVault envVault : Option String) :
    (∀ v, optVault = some v → resolvedVault optVault envVault = some v) ∧
    (optVault = none → resolvedVault optVault envVault = envVault) ∧
    (∀ v, resolvedVault optVault envVault = some v → v ≠ "" →
      withVault args (resolvedVault optVault envVault) = args ++ ["vault=" ++ v]) ∧
    (resolvedVault optVault envVault = none →
      withVault args (resolvedVault optVault envVault) = args) ∧
    (resolvedVault optVault envVault = some "" →
      withVault args (resolvedVault optVault envVault) = args) := by
  refine ⟨fun v hv => ?_, fun hv => ?_, fun v hv hne => ?_, fun hv => ?_, fun hv => ?_⟩
  · rw [hv]; rfl
  · rw [hv]; rfl
  · rw [hv, withVault, if_pos hne]
  · rw [hv]; rfl
  · rw [hv, withVault]; simp

/-- Witness for C4: with an explicit vault `"Work"` and a configured
default `"Home"`, the explicit one is appended; with neither, the vector
is unchanged. -/
theorem runObsidian_vault_targeting_witness :
    resolvedVault (some "Work") (some "Home") = some "Work" ∧
    withVault ["files"] (resolvedVault (some "Work") (some "Home")) =
      ["files", "vault=Work"] ∧
    withVault ["files"] (resolvedVault none none) = ["files"] := by
  refine ⟨(runObsidian_vault_targeting ["files"] (some "Work") (some "Home")).1 "Work" rfl,
    ?_, (runObsidian_vault_targeting ["files"] none none).2.2.2.1 rfl⟩
  exact (runObsidian_vault_targeting ["files"] (some "Work") (some "Home")).2.2.1 "Work"
    rfl (by decide)

/-- **C2.** Timeout classification: when the external process is killed at
timeout expiry (`error.killed` set), `runObsidian` yields the `Timeout`
failure — whose message names the timeout duration and the full invoked
command — never a `NonZeroExit`, regardless of the partial output in
`stdout`/`stderr`; and every outcome of `runObsidian` is exactly one of
success, `Timeout`, or `NonZeroExit`. -/
theorem runObsidian_timeout_classification (args : List String) (optVault : Option String)
    (optTimeout : Option Nat) (envVault : Option String) (b : ExecBehavior) (e : ExecError)
    (he : b.error = some e) (hk : e.killed = true) :
    runObsidian args optVault optTimeout envVault b =
      .timeoutFailure
        ("Command timed out after " ++ toString (resolvedTimeout optTimeout) ++
          "ms: obsidian " ++
          String.intercalate " " (withVault args (resolvedVault optVault envVault)))
        1 b.stderr ∧
    (∀ m c s, runObsidian args optVault optTimeout envVault b ≠ .nonZeroExit m c s) ∧
    (∀ bAny : ExecBehavior,
      (∃ out, runObsidian args optVault optTimeout envVault bAny = .ok out) ∨
      (∃ m c s, runObsidian args optVault optTimeout envVault bAny =
        .timeoutFailure m c s) ∨
      (∃ m c s, runObsidian args optVault optTimeout envVault bAny =
        .nonZeroExit m c s)) := by
  have hmain : runObsidian args optVault optTimeout envVault b =
      .timeoutFailure
        ("Command timed out after " ++ toString (resolvedTimeout optTimeout) ++
          "ms: obsidian " ++
          String.intercalate " " (withVault args (resolvedVault optVault envVault)))
        1 b.stderr := by
    simp [runObsidian, execObsidian, he, hk]
  refine ⟨hmain, fun m c s => ?_, fun bAny => ?_⟩
  · rw [hmain]; intro h; exact RunResult.noConfusion h
  · cases h : runObsidian args optVault optTimeout envVault bAny with
    | ok out => exact Or.inl ⟨out, rfl⟩
    | timeoutFailure m c s => exact Or.inr (Or.inl ⟨m, c, s, rfl⟩)
    | nonZeroExit m c s => exact Or.inr (Or.inr ⟨m, c, s, rfl⟩)

/-- Witness for C2: a killed process with partial output yields the
timeout failure naming the 15000 ms default and the full command
including the vault token. -/
theorem runObsidian_timeout_classification_witness :
    runObsidian ["read"] none none (some "Work")
        ⟨some ⟨true, none⟩, "partial", "err"⟩ =
      .timeoutFailure "Command timed out after 15000ms: obsidian read vault=Work"
        1 "err" :=
  (runObsidian_timeout_classification ["read"] none none (some "Work")
    ⟨some ⟨true, none⟩, "partial", "err"⟩ ⟨true, none⟩ rfl rfl).1

/-- **C3.** Non-zero exit classification: on normal termination with a
non-zero exit status, `runObsidian` yields a `NonZeroExit` failure whose
message is the trimmed stderr when non-empty (regardless of stdout),
else the trimmed stdout when non-empty, else the literal
`"Command failed"`, carrying the numeric exit status and the raw
stderr. -/
theorem runObsidian_nonzero_classification (args : List String) (optVault : Option String)
    (optTimeout : Option Nat) (envVault : Option String) (b : ExecBehavior) (e : ExecError)
    (he : b.error = some e) (hk : e.killed = false) (hc : e.code.getD 1 ≠ 0) :
    (jsTrim b.stderr ≠ "" →
      runObsidian args optVault optTimeout envVault b =
        .nonZeroExit (jsTrim b.stderr) (e.code.getD 1) b.stderr) ∧
    (jsTrim b.stderr = "" → jsTrim b.stdout ≠ "" →
      runObsidian args optVault optTimeout envVault b =
        .nonZeroExit (jsTrim b.stdout) (e.code.getD 1) b.stderr) ∧
    (jsTrim b.stderr = "" → jsTrim b.stdout = "" →
      runObsidian args optVault optTimeout envVault b =
        .nonZeroExit "Command failed" (e.code.getD 1) b.stderr) := by
  refine ⟨fun h1 => ?_, fun h1 h2 => ?_, fun h1 h2 => ?_⟩
  · simp [runObsidian, execObsidian, he, hk, hc, h1]
  · simp [runObsidian, execObsidian, he, hk, hc, h1, h2]
  · simp [runObsidian, execObsidian, he, hk, hc, h1, h2]

/-- Witness for C3: exit code 2 with whitespace-padded stderr `" boom \n"`
and non-empty stdout yields the message `"boom"` (trimmed stderr takes
precedence over stdout). -/
theorem runObsidian_nonzero_classification_witness :
    runObsidian ["read"] none none none ⟨some ⟨false, some 2⟩, "out", " boom \n"⟩ =
      .nonZeroExit "boom" 2 " boom \n" :=
  (runObsidian_nonzero_classification ["read"] none none none
    ⟨some ⟨false, some 2⟩, "out", " boom \n"⟩ ⟨false, some 2⟩ rfl rfl
    (by decide)).1 (by decide)

/-! ## Input Validator (claims C5, C8, C10) -/

theorem checkRequiredField_of_absent (input : Bag) (f : String)
    (h : isAbsentOrNull (jsGet input f) = true) :
    checkRequiredField input f = some (.missingRequired f) := by
  cases hv : jsGet input f <;> simp_all [checkRequiredField, isAbsentOrNull]

theorem checkRequiredField_shape (input : Bag) (f : String) (e : ValidationError)
    (h : checkRequiredField input f = some e) :
    (e = .missingRequired f ∧ isAbsentOrNull (jsGet input f) = true) ∨
    (e = .emptyRequired f ∧ isBlankStr (jsGet input f) = true) := by
  unfold checkRequiredField at h
  cases hv : jsGet input f with
  | str s =>
    simp only [hv] at h
    by_cases hb : jsTrim s = ""
    · rw [if_pos hb] at h
      obtain rfl : ValidationError.emptyRequired f = e := Option.some.inj h
      exact Or.inr ⟨rfl, by simp [isBlankStr, hb]⟩
    · rw [if_neg hb] at h
      exact Option.noConfusion h
  | num n =>
    simp only [hv] at h
    exact Option.noConfusion h
  | boolean bb =>
    simp only [hv] at h
    exact Option.noConfusion h
  | null =>
    simp only [hv] at h
    obtain rfl : ValidationError.missingRequired f = e := Option.some.inj h
    exact Or.inl ⟨rfl, rfl⟩
  | undefined =>
    simp only [hv] at h
    obtain rfl : ValidationError.missingRequired f = e := Option.some.inj h
    exact Or.inl ⟨rfl, rfl⟩

/-- **C5 (amended).** Required-field precedence: whenever some required
field of a known tool is absent or null in the bag, `validateInput` fails
with a required-field failure (`MissingRequired` or `EmptyRequired`) for
one of the required fields — never a type or enum failure, whatever else
the bag contains; and when additionally no required field holds a blank
string, the failure is a `MissingRequired` for a required field that is
indeed absent or null. -/
theorem validateInput_required_precedence (name : String) (input : Bag)
    (schema : ToolSchema) (hs : getSchema name = some schema)
    (hmiss : schema.required.any (fun f => isAbsentOrNull (jsGet input f)) = true) :
    isRequiredFieldFailure schema.required (validateInput name input) = true ∧
    (schema.required.all (fun f => !isBlankStr (jsGet input f)) = true →
      isMissingRequiredFor schema.required input (validateInput name input) = true) := by
  obtain ⟨f0, hf0mem, hf0⟩ := List.any_eq_true.mp hmiss
  have hne : List.findSome? (checkRequiredField input) schema.required ≠ none := by
    intro hnone
    have hz := List.findSome?_eq_none_iff.mp hnone f0 hf0mem
    rw [checkRequiredField_of_absent input f0 hf0] at hz
    exact Option.noConfusion hz
  obtain ⟨e, he⟩ := Option.ne_none_iff_exists'.mp hne
  obtain ⟨l₁, a, l₂, hsplit, ha, -⟩ := List.findSome?_eq_some_iff.mp he
  have hamem : a ∈ schema.required := by
    rw [hsplit]
    exact List.mem_append_right _ (List.mem_cons_self _ _)
  have hval : validateInput name input = some e := by
    simp only [validateInput, hs, he]
  rcases checkRequiredField_shape input a e ha with ⟨rfl, habs⟩ | ⟨rfl, hblank⟩
  · constructor
    · rw [hval]
      simp [isRequiredFieldFailure, hamem]
    · intro _
      rw [hval]
      simp [isMissingRequiredFor, hamem, habs]
  · constructor
    · rw [hval]
      simp [isRequiredFieldFailure, hamem]
    · intro hall
      have hz := List.all_eq_true.mp hall a hamem
      rw [hblank] at hz
      exact Bool.noConfusion hz

/-- Witness for C5 (amended): `move_file` requires `from` and `to`; on the
empty bag both are absent, the reported failure is a `MissingRequired`
for a required, absent field. -/
theorem validateInput_required_precedence_witness :
    isRequiredFieldFailure ["from", "to"] (validateInput "move_file" []) = true ∧
    isMissingRequiredFor ["from", "to"] [] (validateInput "move_file" []) = true := by
  have h := validateInput_required_precedence "move_file" []
    ⟨["from", "to"], [("from", tprop "string"), ("to", tprop "string")]⟩
    (by decide) (by decide)
  exact ⟨h.1, h.2 (by decide)⟩

/-- **C5 counterexample.** The claim says a bag with an absent-or-null
required field always yields `MissingRequired`.  For `move_file` with bag
`{from: " "}`, the required field `to` is absent, yet `validateInput`
reports `EmptyRequired` for `from` (the blank string is hit first), not a
`MissingRequired`. -/
theorem validateInput_missing_required_cex :
    (getSchema "move_file").map (fun s => decide ("to" ∈ s.required)) = some true ∧
    jsGet [("from", JsValue.str " ")] "to" = JsValue.undefined ∧
    validateInput "move_file" [("from", JsValue.str " ")] =
      some (.emptyRequired "from") ∧
    isMissingRequiredError (validateInput "move_file" [("from", JsValue.str " ")]) =
      false := by
  decide

/-- Catalog invariant: every required field of every tool is also declared
among the tool's properties. -/
theorem tools_required_declared :
    tools.all (fun t => t.required.all
      (fun f => (List.find? (fun p => p.1 == f) t.properties).isSome)) = true := by
  decide

theorem getSchema_required_declared (name : String) (schema : ToolSchema)
    (hs : getSchema name = some schema) :
    ∀ f ∈ schema.required, (List.find? (fun p => p.1 == f) schema.properties).isSome = true := by
  intro f hf
  unfold getSchema at hs
  cases hfind : List.find? (fun t => t.name == name) tools with
  | none =>
    rw [hfind] at hs
    exact Option.noConfusion hs
  | some t =>
    rw [hfind] at hs
    have ht : t ∈ tools := List.mem_of_find?_eq_some hfind
    have h1 := List.all_eq_true.mp tools_required_declared t ht
    have hs' : (⟨t.required, t.properties⟩ : ToolSchema) = schema := by simpa using hs
    rw [← hs'] at hf ⊢
    exact List.all_eq_true.mp h1 f hf

/-- **C8.** Validator permissiveness: for a known tool and a bag that
validates, adding an entry whose key is not declared among the schema's
properties never makes `validateInput` fail — extra parameters pass
through silently. -/
theorem validateInput_extra_params (name : String) (input : Bag) (k : String) (v : JsValue)
    (schema : ToolSchema) (hs : getSchema name = some schema)
    (hk : List.find? (fun p => p.1 == k) schema.properties = none)
    (hok : validateInput name input = none) :
    validateInput name (input ++ [(k, v)]) = none := by
  have hreqdecl := getSchema_required_declared name schema hs
  simp only [validateInput, hs] at hok ⊢
  cases hr : List.findSome? (checkRequiredField input) schema.required with
  | some e =>
    simp only [hr] at hok
    exact Option.noConfusion hok
  | none =>
    simp only [hr] at hok
    have hreq2 : List.findSome? (checkRequiredField (input ++ [(k, v)]))
        schema.required = none := by
      rw [List.findSome?_eq_none_iff]
      intro f hf
      have hfk : f ≠ k := by
        intro hfe
        have hdecl := hreqdecl f hf
        rw [hfe, hk] at hdecl
        simp at hdecl
      have hget : jsGet (input ++ [(k, v)]) f = jsGet input f := by
        unfold jsGet
        rw [List.find?_append]
        cases hfi : List.find? (fun kv => kv.1 == f) input with
        | some kv => simp [hfi]
        | none =>
          have hkf : (k == f) = false := beq_eq_false_iff_ne.mpr (Ne.symm hfk)
          simp [hfi, hkf]
      have hcrf : checkRequiredField (input ++ [(k, v)]) f = checkRequiredField input f := by
        unfold checkRequiredField
        rw [hget]
      rw [hcrf]
      exact List.findSome?_eq_none_iff.mp hr f hf
    simp only [hreq2]
    rw [List.findSome?_append, hok]
    have hcd : checkDeclaredProp schema.properties (k, v) = none := by
      unfold checkDeclaredProp
      by_cases hv : v = JsValue.undefined
      · simp [hv]
      · simp [hv, hk]
    simp [List.findSome?, hcd]

/-- Witness for C8: the empty bag validates for `daily_note` (which
declares no properties), and so does the bag extended with the
undeclared key `extra`. -/
theorem validateInput_extra_params_witness :
    validateInput "daily_note" [("extra", JsValue.str "x")] = none :=
  validateInput_extra_params "daily_note" [] "extra" (JsValue.str "x") ⟨[], []⟩
    (by decide) (by decide) (by decide)

/-- Catalog coverage: every tool name in the catalog has a dispatch case
in `handleTool`'s switch. -/
theorem tools_all_dispatched : tools.all (fun t => handleToolHasCase t.name) = true := by
  decide

/-- **C10.** Once `validateInput` succeeds the tool name is in the
catalog, and every catalog name has a dispatch case, so `handleTool`'s
final `Unknown tool` default branch is unreachable after successful
validation. -/
theorem handleTool_no_unknown_after_validate (name : String) (input : Bag)
    (h : validateInput name input = none) : handleToolHasCase name = true := by
  cases hg : getSchema name with
  | none =>
    simp only [validateInput, hg] at h
    exact Option.noConfusion h
  | some schema =>
    unfold getSchema at hg
    cases hfind : List.find? (fun t => t.name == name) tools with
    | none =>
      rw [hfind] at hg
      exact Option.noConfusion hg
    | some t =>
      have ht : t ∈ tools := List.mem_of_find?_eq_some hfind
      have hname := @List.find?_some _ (fun t => t.name == name) t tools hfind
      have hEq : t.name = name := by simpa using hname
      have hall := List.all_eq_true.mp tools_all_dispatched t ht
      rw [← hEq]
      exact hall

/-- Witness for C10: a valid `backlog_done` call dispatches (no
`Unknown tool`). -/
theorem handleTool_no_unknown_after_validate_witness :
    validateInput "backlog_done" [("project", JsValue.str "p"), ("item", JsValue.str "i")] =
      none ∧
    handleToolHasCase "backlog_done" = true :=
  ⟨by decide,
    handleTool_no_unknown_after_validate "backlog_done"
      [("project", JsValue.str "p"), ("item", JsValue.str "i")] (by decide)⟩

/-! ## `backlog_done` (claim C1) -/

/-- `charsContain` (the model of `String.prototype.includes`) decides
exactly contiguous-substring containment. -/
theorem charsContain_iff (pat : List Char) : ∀ l : List Char,
    charsContain pat l = true ↔ ∃ pre post, pre ++ pat ++ post = l := by
  intro l
  induction l with
  | nil =>
    simp only [charsContain, List.isEmpty_iff]
    constructor
    · intro h
      exact ⟨[], [], by simp [h]⟩
    · rintro ⟨pre, post, hp⟩
      simp only [List.append_eq_nil] at hp
      exact hp.1.2
  | cons c rest ih =>
    simp only [charsContain, Bool.or_eq_true, List.isPrefixOf_iff_prefix, ih]
    constructor
    · rintro (hpre | ⟨pre, post, rfl⟩)
      · obtain ⟨t, ht⟩ := hpre
        exact ⟨[], t, by simpa using ht⟩
      · exact ⟨c :: pre, post, rfl⟩
    · rintro ⟨pre, post, hp⟩
      cases pre with
      | nil =>
        left
        exact ⟨post, by simpa using hp⟩
      | cons p ps =>
        right
        rw [List.cons_append, List.cons_append] at hp
        injection hp with h1 h2
        exact ⟨ps, post, h2⟩

theorem markFirst_of_none (item stamp : String) (ls : List String)
    (h : ∀ l ∈ ls, matchesLine item l = false) :
    markFirst item stamp ls = none := by
  induction ls with
  | nil => rfl
  | cons l rest ih =>
    have h1 : matchesLine item l = false := h l (List.mem_cons_self l rest)
    have h2 : markFirst item stamp rest = none :=
      ih (fun x hx => h x (List.mem_cons_of_mem l hx))
    simp [markFirst, h1, h2]

theorem markFirst_of_found (item stamp : String) (pre : List String) (line : String)
    (post : List String) (hpre : ∀ p ∈ pre, matchesLine item p = false)
    (hline : matchesLine item line = true) :
    markFirst item stamp (pre ++ line :: post) =
      some (pre ++ markDoneLine line stamp :: post) := by
  induction pre with
  | nil => simp [markFirst, hline]
  | cons p rest ih =>
    have hp : matchesLine item p = false := hpre p (List.mem_cons_self p rest)
    have ih' := ih (fun x hx => hpre x (List.mem_cons_of_mem p hx))
    simp [markFirst, hp, ih']

/-- **C1.** The `backlog_done` compound operation rewrites exactly the
first line that starts with `"- [ ] "` and contains the item substring:
it swaps the marker to `"- [x] "`, appends the `@done` timestamp
annotation, and leaves every other line (before and after) unchanged in
the written-back text; and when no line matches it fails with the
not-found error — a distinct outcome that issues no write-back
invocation.  The final conjunct grounds the line-match test: a line
matches exactly when it starts with the unchecked marker and contains
the item as a contiguous substring. -/
theorem backlogDone_marks_first_match (project item stamp content : String) :
    (∀ pre line post,
      jsSplit content '\n' = pre ++ line :: post →
      (∀ p ∈ pre, matchesLine item p = false) →
      matchesLine item line = true →
      backlogDone project item stamp content =
        .done (String.intercalate "\n" (pre ++ markDoneLine line stamp :: post))
          ("Marked done: " ++ item)) ∧
    (∀ line, matchesLine item line = true →
      markDoneLine line stamp =
        "- [x] " ++ jsDrop line 6 ++ " @done (" ++ stamp ++ ")") ∧
    ((∀ l ∈ jsSplit content '\n', matchesLine item l = false) →
      backlogDone project item stamp content =
        .notFound ("No unchecked backlog item matching \"" ++ item ++ "\" in Projects/" ++
          project ++ "/backlog.md")) ∧
    (∀ line, matchesLine item line = true ↔
      (jsStartsWith line "- [ ] " = true ∧
        ∃ pre post, pre ++ item.data ++ post = line.data)) := by
  refine ⟨fun pre line post hsplit hpre hline => ?_, fun line hline => ?_, fun hnone => ?_,
    fun line => ?_⟩
  · unfold backlogDone
    rw [hsplit, markFirst_of_found item stamp pre line post hpre hline]
  · have hsw : jsStartsWith line "- [ ] " = true := by
      unfold matchesLine at hline
      simp only [Bool.and_eq_true] at hline
      exact hline.1
    unfold markDoneLine swapMarker
    rw [if_pos hsw]
  · unfold backlogDone
    rw [markFirst_of_none item stamp _ hnone]
  · simp [matchesLine, Bool.and_eq_true, jsIncludes, charsContain_iff]

/-- Witness for C1: over backing text `"- [ ] Fix bug\n- [ ] Write docs"`,
matching `"Fix bug"` rewrites the first line only; matching
`"nonexistent"` yields the not-found outcome. -/
theorem backlogDone_marks_first_match_witness :
    backlogDone "demo" "Fix bug" "26-02-11 09:30" "- [ ] Fix bug\n- [ ] Write docs" =
      .done "- [x] Fix bug @done (26-02-11 09:30)\n- [ ] Write docs"
        "Marked done: Fix bug" ∧
    backlogDone "demo" "nonexistent" "26-02-11 09:30" "- [ ] Fix bug\n- [ ] Write docs" =
      .notFound
        "No unchecked backlog item matching \"nonexistent\" in Projects/demo/backlog.md" := by
  constructor
  · exact (backlogDone_marks_first_match "demo" "Fix bug" "26-02-11 09:30"
      "- [ ] Fix bug\n- [ ] Write docs").1 [] "- [ ] Fix bug" ["- [ ] Write docs"]
      (by decide) (by simp) (by decide)
  · exact (backlogDone_marks_first_match "demo" "nonexistent" "26-02-11 09:30"
      "- [ ] Fix bug\n- [ ] Write docs").2.2.1 (by decide)

/-! ## `project_list` (claim C9) -/

theorem dedupSeen_sublist (l : List String) : ∀ seen, List.Sublist (dedupSeen seen l) l := by
  induction l with
  | nil =>
    intro seen
    simp [dedupSeen]
  | cons x xs ih =>
    intro seen
    by_cases h : x ∈ seen
    · simp only [dedupSeen, if_pos h]
      exact List.Sublist.cons x (ih seen)
    · simp only [dedupSeen, if_neg h]
      exact List.Sublist.cons₂ x (ih (x :: seen))

theorem mem_dedupSeen (x : String) : ∀ (l seen : List String),
    x ∈ dedupSeen seen l ↔ x ∈ l ∧ x ∉ seen := by
  intro l
  induction l with
  | nil =>
    intro seen
    simp [dedupSeen]
  | cons y ys ih =>
    intro seen
    by_cases h : y ∈ seen
    · simp only [dedupSeen, if_pos h]
      rw [ih seen]
      constructor
      · rintro ⟨hx, hns⟩
        exact ⟨List.mem_cons_of_mem y hx, hns⟩
      · rintro ⟨hx, hns⟩
        rcases List.mem_cons.mp hx with rfl | hx'
        · exact absurd h hns
        · exact ⟨hx', hns⟩
    · simp only [dedupSeen, if_neg h, List.mem_cons]
      rw [ih (y :: seen)]
      constructor
      · rintro (rfl | ⟨hx, hns⟩)
        · exact ⟨Or.inl rfl, h⟩
        · exact ⟨Or.inr hx, fun hs => hns (List.mem_cons_of_mem y hs)⟩
      · rintro ⟨rfl | hx, hns⟩
        · exact Or.inl rfl
        · by_cases hxy : x = y
          · exact Or.inl hxy
          · exact Or.inr ⟨hx, by simp [List.mem_cons, hxy, hns]⟩

theorem nodup_dedupSeen : ∀ (l seen : List String), (dedupSeen seen l).Nodup := by
  intro l
  induction l with
  | nil =>
    intro seen
    simp [dedupSeen]
  | cons x xs ih =>
    intro seen
    by_cases h : x ∈ seen
    · simpa only [dedupSeen, if_pos h] using ih seen
    · simp only [dedupSeen, if_neg h, List.nodup_cons]
      refine ⟨fun hmem => ?_, ih (x :: seen)⟩
      exact ((mem_dedupSeen x xs (x :: seen)).mp hmem).2 (List.mem_cons_self x seen)

theorem pairwise_indexOf_dedupSeen (l : List String) : ∀ seen,
    (dedupSeen seen l).Pairwise (fun a b => l.indexOf a < l.indexOf b) := by
  induction l with
  | nil =>
    intro seen
    simp [dedupSeen]
  | cons x xs ih =>
    intro seen
    by_cases h : x ∈ seen
    · simp only [dedupSeen, if_pos h]
      refine List.Pairwise.imp_of_mem ?_ (ih seen)
      intro a b ha hb hab
      have ha' := (mem_dedupSeen a xs seen).mp ha
      have hb' := (mem_dedupSeen b xs seen).mp hb
      have hax : x ≠ a := fun he => ha'.2 (he ▸ h)
      have hbx : x ≠ b := fun he => hb'.2 (he ▸ h)
      rw [List.indexOf_cons_ne _ hax, List.indexOf_cons_ne _ hbx]
      exact Nat.succ_lt_succ hab
    · simp only [dedupSeen, if_neg h]
      refine List.Pairwise.cons ?_ ?_
      · intro b hb
        have hb' := (mem_dedupSeen b xs (x :: seen)).mp hb
        have hbx : b ≠ x := fun he => hb'.2 (he ▸ List.mem_cons_self x seen)
        rw [List.indexOf_cons_self, List.indexOf_cons_ne _ (Ne.symm hbx)]
        exact Nat.succ_pos _
      · refine List.Pairwise.imp_of_mem ?_ (ih (x :: seen))
        intro a b ha hb hab
        have ha' := (mem_dedupSeen a xs (x :: seen)).mp ha
        have hb' := (mem_dedupSeen b xs (x :: seen)).mp hb
        have hax : a ≠ x := fun he => ha'.2 (he ▸ List.mem_cons_self x seen)
        have hbx : b ≠ x := fun he => hb'.2 (he ▸ List.mem_cons_self x seen)
        rw [List.indexOf_cons_ne _ (Ne.symm hax), List.indexOf_cons_ne _ (Ne.symm hbx)]
        exact Nat.succ_lt_succ hab

/-- **C9.** `project_list` returns the derived project names (first path
segment after the stripped `Projects/` prefix, empty names dropped)
deduplicated and joined by newlines: the emitted list has no duplicates,
is a subsequence of the raw name stream (so relative order is preserved),
contains exactly the names occurring in the stream, and is ordered by
each name's first occurrence in the stream. -/
theorem projectList_unique_first_seen (listing : String) :
    projectList listing = String.intercalate "\n" (dedupFirst (projectNames listing)) ∧
    (dedupFirst (projectNames listing)).Nodup ∧
    List.Sublist (dedupFirst (projectNames listing)) (projectNames listing) ∧
    (∀ x, x ∈ dedupFirst (projectNames listing) ↔ x ∈ projectNames listing) ∧
    (dedupFirst (projectNames listing)).Pairwise
      (fun a b => (projectNames listing).indexOf a < (projectNames listing).indexOf b) := by
  refine ⟨rfl, nodup_dedupSeen _ _, dedupSeen_sublist _ _, fun x => ?_,
    pairwise_indexOf_dedupSeen _ _⟩
  rw [dedupFirst, mem_dedupSeen]
  simp
